import Mathlib

/-!
# Verification of the unsubscribe token endpoint

A shallow embedding of `api/unsubscribe/[token].js`: the base64url token
codec, the HMAC-SHA256 signature gate, the JSON payload checks, the expiry
comparison, the suppression-store upsert and the response shaping of the
HTTP handler, together with proofs of the specified properties.

Bytes are modelled as natural numbers below 256 (`List Nat` for byte
strings), 32-bit words as natural numbers reduced modulo `2 ^ 32` after
every operation, and JavaScript strings as `List Char`.  JavaScript
numbers are modelled exactly (no floating-point rounding): finite values
as rationals, with `NaN` and the infinities as explicit constructors
where the code can produce them (`Number(...)` coercion).
-/

namespace Unsubscribe

set_option maxRecDepth 1000000

/-! ## SHA-256 (FIPS 180-4) over byte lists

The handler calls Node's `crypto.createHmac("sha256", secret)`; the hash
and the HMAC construction (FIPS 198-1) are embedded here concretely so
that tokens, signatures and the verifier are all executable. -/

/-- Truncation to a 32-bit word. -/
def w32 (x : Nat) : Nat := x % 4294967296

/-- Addition modulo `2 ^ 32`. -/
def add32 (a b : Nat) : Nat := (a + b) % 4294967296

/-- Right rotation of a 32-bit word. -/
def rotr32 (n x : Nat) : Nat := w32 ((x >>> n) ||| (x <<< (32 - n)))

/-- Right shift of a 32-bit word. -/
def shr32 (n x : Nat) : Nat := x >>> n

/-- The choice function `Ch(x,y,z)` of FIPS 180-4. -/
def ch32 (x y z : Nat) : Nat := Nat.xor (Nat.land x y) (Nat.land (4294967295 - x) z)

/-- The majority function `Maj(x,y,z)` of FIPS 180-4. -/
def maj32 (x y z : Nat) : Nat :=
  Nat.xor (Nat.xor (Nat.land x y) (Nat.land x z)) (Nat.land y z)

/-- Big sigma-0. -/
def bsig0 (x : Nat) : Nat := Nat.xor (Nat.xor (rotr32 2 x) (rotr32 13 x)) (rotr32 22 x)

/-- Big sigma-1. -/
def bsig1 (x : Nat) : Nat := Nat.xor (Nat.xor (rotr32 6 x) (rotr32 11 x)) (rotr32 25 x)

/-- Small sigma-0. -/
def ssig0 (x : Nat) : Nat := Nat.xor (Nat.xor (rotr32 7 x) (rotr32 18 x)) (shr32 3 x)

/-- Small sigma-1. -/
def ssig1 (x : Nat) : Nat := Nat.xor (Nat.xor (rotr32 17 x) (rotr32 19 x)) (shr32 10 x)

/-- The 64 SHA-256 round constants. -/
def shaK : List Nat :=
  [1116352408, 1899447441, 3049323471, 3921009573, 961987163,
   1508970993, 2453635748, 2870763221, 3624381080, 310598401,
   607225278, 1426881987, 1925078388, 2162078206, 2614888103,
   3248222580, 3835390401, 4022224774, 264347078, 604807628,
   770255983, 1249150122, 1555081692, 1996064986, 2554220882,
   2821834349, 2952996808, 3210313671, 3336571891, 3584528711,
   113926993, 338241895, 666307205, 773529912, 1294757372,
   1396182291, 1695183700, 1986661051, 2177026350, 2456956037,
   2730485921, 2820302411, 3259730800, 3345764771, 3516065817,
   3600352804, 4094571909, 275423344, 430227734, 506948616,
   659060556, 883997877, 958139571, 1322822218, 1537002063,
   1747873779, 1955562222, 2024104815, 2227730452, 2361852424,
   2428436474, 2756734187, 3204031479, 3329325298]

/-- The eight-word SHA-256 working state. -/
structure Hash8 where
  a : Nat
  b : Nat
  c : Nat
  d : Nat
  e : Nat
  f : Nat
  g : Nat
  h : Nat

/-- The SHA-256 initial hash value. -/
def shaInit : Hash8 :=
  ⟨1779033703, 3144134277, 1013904242, 2773480762,
   1359893119, 2600822924, 528734635, 1541459225⟩

/-- One SHA-256 round: absorb one `(K, W)` pair into the working state. -/
def shaRound (st : Hash8) (kw : Nat × Nat) : Hash8 :=
  let t1 := add32 st.h (add32 (bsig1 st.e) (add32 (ch32 st.e st.f st.g) (add32 kw.1 kw.2)))
  let t2 := add32 (bsig0 st.a) (maj32 st.a st.b st.c)
  ⟨add32 t1 t2, st.a, st.b, st.c, add32 st.d t1, st.e, st.f, st.g⟩

/-- Extend the 16 message words to 64, keeping the accumulator reversed
while extending (`acc.getD 1 0` is `W[t-2]`, and so on). -/
def wExtend : Nat → List Nat → List Nat
  | 0, acc => acc.reverse
  | n + 1, acc =>
    let nw := add32 (add32 (ssig1 (acc.getD 1 0)) (acc.getD 6 0))
                    (add32 (ssig0 (acc.getD 14 0)) (acc.getD 15 0))
    wExtend n (nw :: acc)

/-- Big-endian packing of bytes into 32-bit words (groups of four). -/
def bytesToWords : List Nat → List Nat
  | a :: b :: c :: d :: rest => (((a * 256 + b) * 256 + c) * 256 + d) :: bytesToWords rest
  | _ => []

/-- Compress one 64-byte block into the running hash value. -/
def shaCompress (H : Hash8) (block : List Nat) : Hash8 :=
  let ws := wExtend 48 (bytesToWords block).reverse
  let st := (List.zip shaK ws).foldl shaRound H
  ⟨add32 H.a st.a, add32 H.b st.b, add32 H.c st.c, add32 H.d st.d,
   add32 H.e st.e, add32 H.f st.f, add32 H.g st.g, add32 H.h st.h⟩

/-- Fold `shaCompress` over the 64-byte blocks of a padded message; the
fuel argument (instantiated with the message length) keeps the recursion
structural. -/
def shaBlocks : Nat → Hash8 → List Nat → Hash8
  | _, H, [] => H
  | 0, H, _ => H
  | fuel + 1, H, l => shaBlocks fuel (shaCompress H (l.take 64)) (l.drop 64)

/-- SHA-256 padding: append `0x80`, zeros to 56 mod 64, then the bit
length as eight big-endian bytes. -/
def shaPad (msg : List Nat) : List Nat :=
  let L := msg.length
  let k := (119 - L % 64) % 64
  let bits := L * 8
  msg ++ 0x80 :: List.replicate k 0 ++
    [bits / 2 ^ 56 % 256, bits / 2 ^ 48 % 256, bits / 2 ^ 40 % 256, bits / 2 ^ 32 % 256,
     bits / 2 ^ 24 % 256, bits / 2 ^ 16 % 256, bits / 2 ^ 8 % 256, bits % 256]

/-- Big-endian serialization of a 32-bit word to four bytes. -/
def wordBytes (x : Nat) : List Nat :=
  [x / 2 ^ 24 % 256, x / 2 ^ 16 % 256, x / 2 ^ 8 % 256, x % 256]

/-- SHA-256 of a byte list, as a 32-byte list. -/
def sha256 (msg : List Nat) : List Nat :=
  let p := shaPad msg
  let H := shaBlocks p.length shaInit p
  wordBytes H.a ++ wordBytes H.b ++ wordBytes H.c ++ wordBytes H.d ++
  wordBytes H.e ++ wordBytes H.f ++ wordBytes H.g ++ wordBytes H.h

/-- HMAC-SHA256 (FIPS 198-1) with a 64-byte block size. -/
def hmacSha256 (key msg : List Nat) : List Nat :=
  let k0 := if 64 < key.length then sha256 key else key
  let k0p := k0 ++ List.replicate (64 - k0.length) 0
  let ipadK := k0p.map fun b => Nat.xor b 0x36
  let opadK := k0p.map fun b => Nat.xor b 0x5c
  sha256 (opadK ++ sha256 (ipadK ++ msg))

/-- Every byte of a SHA-256 digest is below 256. -/
theorem sha256_bytes_lt {msg : List Nat} : ∀ b ∈ sha256 msg, b < 256 := by
  intro b hb
  simp only [sha256, wordBytes, List.mem_append, List.mem_cons, List.not_mem_nil, or_false]
    at hb
  omega

/-- A SHA-256 digest is 32 bytes long. -/
theorem sha256_length (msg : List Nat) : (sha256 msg).length = 32 := by
  simp [sha256, wordBytes]

/-- Every byte of an HMAC-SHA256 tag is below 256. -/
theorem hmacSha256_bytes_lt {key msg : List Nat} : ∀ b ∈ hmacSha256 key msg, b < 256 := by
  intro b hb
  exact sha256_bytes_lt b hb

/-- An HMAC-SHA256 tag is 32 bytes long. -/
theorem hmacSha256_length (key msg : List Nat) : (hmacSha256 key msg).length = 32 :=
  sha256_length _

/-! ## Base64url codec

`base64urlToBuffer` is the decoder from the source file: substitute the
URL-safe characters back, restore the padding, and apply a standard
base64 decode (Node's `Buffer.from(b64, "base64")`, which ignores
characters outside the alphabet, including the `=` padding itself).
The encoder `base64urlEncode` is the issuer side of the wire format;
token issuance is outside the repository, so it is modelled from the
spec: URL-safe base64 of the raw bytes, unpadded. -/

/-- The standard base64 alphabet. -/
def b64Alphabet : List Char :=
  "ABCDEFGHIJKLMNOPQRSTUVWXYZabcdefghijklmnopqrstuvwxyz0123456789+/".data

/-- The URL-safe base64 alphabet (`-` and `_` instead of `+` and `/`). -/
def b64UrlAlphabet : List Char :=
  "ABCDEFGHIJKLMNOPQRSTUVWXYZabcdefghijklmnopqrstuvwxyz0123456789-_".data

/-- Index of a character in the standard alphabet, `none` for characters
outside it (Node's decoder skips those, `=` included). -/
def b64DecodeChar (c : Char) : Option Nat :=
  if c ∈ b64Alphabet then some (b64Alphabet.indexOf c) else none

/-- Pack a byte list into six-bit groups, most significant bits first
(the encoder side of base64, before the alphabet is applied). -/
def bytesToSextets : List Nat → List Nat
  | [] => []
  | [a] => [a / 4, a % 4 * 16]
  | [a, b] => [a / 4, a % 4 * 16 + b / 16, b % 16 * 4]
  | a :: b :: c :: rest =>
    a / 4 :: (a % 4 * 16 + b / 16) :: (b % 16 * 4 + c / 64) :: c % 64 :: bytesToSextets rest

/-- Unpack six-bit groups back into bytes (the decoder side; a trailing
lone sextet carries no complete byte and is dropped, as Node does). -/
def sextetsToBytes : List Nat → List Nat
  | a :: b :: c :: d :: rest =>
    (a * 4 + b / 16) :: (b % 16 * 16 + c / 4) :: (c % 4 * 64 + d) :: sextetsToBytes rest
  | [a, b, c] => [a * 4 + b / 16, b % 16 * 16 + c / 4]
  | [a, b] => [a * 4 + b / 16]
  | _ => []

/-- Modelled from the spec: URL-safe-base64 of the raw token bytes
(token issuance is not part of this repository).  Unpadded, with the
URL-safe alphabet. -/
def base64urlEncode (bytes : List Nat) : List Char :=
  (bytesToSextets bytes).map fun s => b64UrlAlphabet.getD s '?'

/-- Standard base64 decode over characters: drop everything outside the
alphabet, then unpack the sextets. -/
def b64Decode (cs : List Char) : List Nat :=
  sextetsToBytes (cs.filterMap b64DecodeChar)

/-- The `base64urlToBuffer` helper of the source: translate the URL-safe
characters back to the standard alphabet, restore `=` padding from the
length, and decode as standard base64. -/
def base64urlToBuffer (b64url : List Char) : List Nat :=
  let rem := b64url.length % 4
  let pad := if rem ≠ 0 then 4 - rem else 0
  let b64 := b64url.map (fun c => if c = '-' then '+' else if c = '_' then '/' else c) ++
    List.replicate pad '='
  b64Decode b64

/-- Decoding an URL-safe alphabet character after the `-`/`_`
substitution recovers its sextet. -/
theorem b64DecodeChar_url (s : Nat) (hs : s < 64) :
    b64DecodeChar
      (if b64UrlAlphabet.getD s '?' = '-' then '+'
       else if b64UrlAlphabet.getD s '?' = '_' then '/'
       else b64UrlAlphabet.getD s '?') = some s := by
  revert s
  decide

/-- Every sextet produced by `bytesToSextets` from genuine bytes is
below 64. -/
theorem bytesToSextets_lt {bs : List Nat} (hb : ∀ b ∈ bs, b < 256) :
    ∀ s ∈ bytesToSextets bs, s < 64 := by
  induction bs using bytesToSextets.induct with
  | case1 => simp [bytesToSextets]
  | case2 a =>
    have ha := hb a (by simp)
    simp only [bytesToSextets, List.mem_cons, List.not_mem_nil, or_false]
    omega
  | case3 a b =>
    have ha := hb a (by simp)
    have hb2 := hb b (by simp)
    simp only [bytesToSextets, List.mem_cons, List.not_mem_nil, or_false]
    omega
  | case4 a b c rest ih =>
    have ha := hb a (by simp)
    have hb2 := hb b (by simp)
    have hc := hb c (by simp)
    have hrest : ∀ x ∈ rest, x < 256 := fun x hx => hb x (by simp [hx])
    intro s hs
    simp only [bytesToSextets, List.mem_cons] at hs
    rcases hs with h | h | h | h | h
    · omega
    · omega
    · omega
    · omega
    · exact ih hrest s h

/-- Unpacking the sextets of a byte list recovers the bytes. -/
theorem sextetsToBytes_bytesToSextets {bs : List Nat} (hb : ∀ b ∈ bs, b < 256) :
    sextetsToBytes (bytesToSextets bs) = bs := by
  induction bs using bytesToSextets.induct with
  | case1 => rfl
  | case2 a =>
    have ha := hb a (by simp)
    simp only [bytesToSextets, sextetsToBytes, List.cons.injEq, and_true]
    omega
  | case3 a b =>
    have ha := hb a (by simp)
    have hb2 := hb b (by simp)
    simp only [bytesToSextets, sextetsToBytes, List.cons.injEq, and_true]
    omega
  | case4 a b c rest ih =>
    have ha := hb a (by simp)
    have hb2 := hb b (by simp)
    have hc := hb c (by simp)
    have hrest : ∀ x ∈ rest, x < 256 := fun x hx => hb x (by simp [hx])
    simp only [bytesToSextets, sextetsToBytes, ih hrest, List.cons.injEq, and_true]
    omega

/-- The `filterMap` of a composition that succeeds on every element of a
mapped list recovers the list. -/
theorem filterMap_map_of_forall_some {α β : Type} (f : α → β) (g : β → Option α)
    (l : List α) (h : ∀ x ∈ l, g (f x) = some x) : (l.map f).filterMap g = l := by
  induction l with
  | nil => rfl
  | cons a t ih =>
    simp only [List.map_cons, List.filterMap_cons, h a (by simp)]
    rw [ih fun x hx => h x (by simp [hx])]

/-- Base64url round trip: the source's decoder inverts the wire-format
encoder on every byte string. -/
theorem base64urlToBuffer_encode {bs : List Nat} (hb : ∀ b ∈ bs, b < 256) :
    base64urlToBuffer (base64urlEncode bs) = bs := by
  have hsex := bytesToSextets_lt hb
  have hpad : ∀ p : Nat, (List.replicate p '=').filterMap b64DecodeChar = [] := by
    intro p
    induction p with
    | zero => rfl
    | succ n ih =>
      rw [List.replicate_succ, List.filterMap_cons,
        show b64DecodeChar '=' = none from by decide, ih]
  simp only [base64urlToBuffer, b64Decode, base64urlEncode]
  rw [List.filterMap_append, hpad, List.append_nil, List.map_map]
  have key := filterMap_map_of_forall_some
    ((fun c => if c = '-' then '+' else if c = '_' then '/' else c) ∘
      fun s => b64UrlAlphabet.getD s '?')
    b64DecodeChar (bytesToSextets bs) (fun s hs => b64DecodeChar_url s (hsex s hs))
  rw [key]
  exact sextetsToBytes_bytesToSextets hb

/-! ## UTF-8 decoding

The handler turns the payload bytes into a string with
`raw.toString("utf8")` before `JSON.parse`.  Valid sequences decode to
their scalar values; an invalid byte yields U+FFFD and decoding resumes
at the next byte (Node's decoder resynchronizes on maximal subparts,
which can merge several bad bytes into one U+FFFD; every property below
goes through a successful JSON parse or concrete valid bytes, where the
two agree). -/

/-- Decode UTF-8 bytes to characters, substituting U+FFFD for invalid
sequences; the fuel argument keeps the recursion structural and is
instantiated with the byte count by `utf8Decode`. -/
def utf8DecodeFuel : Nat → List Nat → List Char
  | 0, _ => []
  | _, [] => []
  | fuel + 1, b :: rest =>
    if b < 0x80 then Char.ofNat b :: utf8DecodeFuel fuel rest
    else if 0xC2 ≤ b ∧ b ≤ 0xDF then
      match rest with
      | b2 :: rest2 =>
        if 0x80 ≤ b2 ∧ b2 ≤ 0xBF then
          Char.ofNat ((b - 0xC0) * 64 + (b2 - 0x80)) :: utf8DecodeFuel fuel rest2
        else '�' :: utf8DecodeFuel fuel rest
      | [] => ['�']
    else if 0xE0 ≤ b ∧ b ≤ 0xEF then
      match rest with
      | b2 :: b3 :: rest2 =>
        if (if b = 0xE0 then 0xA0 else 0x80) ≤ b2 ∧ b2 ≤ (if b = 0xED then 0x9F else 0xBF) ∧
            0x80 ≤ b3 ∧ b3 ≤ 0xBF then
          Char.ofNat ((b - 0xE0) * 4096 + (b2 - 0x80) * 64 + (b3 - 0x80)) ::
            utf8DecodeFuel fuel rest2
        else '�' :: utf8DecodeFuel fuel rest
      | _ => '�' :: utf8DecodeFuel fuel rest
    else if 0xF0 ≤ b ∧ b ≤ 0xF4 then
      match rest with
      | b2 :: b3 :: b4 :: rest2 =>
        if (if b = 0xF0 then 0x90 else 0x80) ≤ b2 ∧ b2 ≤ (if b = 0xF4 then 0x8F else 0xBF) ∧
            0x80 ≤ b3 ∧ b3 ≤ 0xBF ∧ 0x80 ≤ b4 ∧ b4 ≤ 0xBF then
          Char.ofNat ((b - 0xF0) * 262144 + (b2 - 0x80) * 4096 + (b3 - 0x80) * 64 + (b4 - 0x80))
            :: utf8DecodeFuel fuel rest2
        else '�' :: utf8DecodeFuel fuel rest
      | _ => '�' :: utf8DecodeFuel fuel rest
    else '�' :: utf8DecodeFuel fuel rest

/-- Decode UTF-8 bytes to characters (every step consumes at least one
byte, so the byte count is enough fuel). -/
def utf8Decode (bytes : List Nat) : List Char := utf8DecodeFuel (bytes.length + 1) bytes

/-! ## JavaScript values and `JSON.parse`

`JSON.parse(raw.toString("utf8"))` produces a JavaScript value: `null`,
a boolean, a number, a string, an array or a plain object.  `undefinedV`
stands for `undefined`, the result of reading an absent property.
Numbers are modelled exactly as rationals (`JSON.parse` loses precision
beyond 2^53 and overflows to Infinity around 1e308; neither matters to
any property below, whose numbers are small).  Lone-surrogate `\u`
escapes are not accepted by the embedded parser (JavaScript keeps them
as unpaired UTF-16 code units, which `List Char` cannot hold). -/

/-- A JavaScript value as produced by `JSON.parse`, plus `undefined`. -/
inductive JsValue where
  | undefinedV
  | null
  | bool (b : Bool)
  | num (q : ℚ)
  | str (s : List Char)
  | arr (elems : List JsValue)
  | obj (fields : List (List Char × JsValue))

/-- JSON insignificant whitespace. -/
def isJsonWs (c : Char) : Bool := c = ' ' || c = '\t' || c = '\n' || c = '\r'

/-- Skip JSON whitespace. -/
def skipWs (cs : List Char) : List Char := cs.dropWhile isJsonWs

/-- Value of one hexadecimal digit. -/
def hexDigit (c : Char) : Option Nat :=
  if '0' ≤ c ∧ c ≤ '9' then some (c.toNat - 48)
  else if 'a' ≤ c ∧ c ≤ 'f' then some (c.toNat - 87)
  else if 'A' ≤ c ∧ c ≤ 'F' then some (c.toNat - 55)
  else none

/-- JSON two-character escapes. -/
def escChar (e : Char) : Option Char :=
  if e = '"' then some '"'
  else if e = '\\' then some '\\'
  else if e = '/' then some '/'
  else if e = 'b' then some (Char.ofNat 8)
  else if e = 'f' then some (Char.ofNat 12)
  else if e = 'n' then some '\n'
  else if e = 'r' then some '\r'
  else if e = 't' then some '\t'
  else none

/-- Parse the body of a JSON string (the opening quote already
consumed), returning the string and the remaining input. -/
def pStringBody : List Char → Option (List Char × List Char)
  | [] => none
  | '"' :: rest => some ([], rest)
  | '\\' :: 'u' :: h1 :: h2 :: h3 :: h4 :: rest =>
    (match hexDigit h1, hexDigit h2, hexDigit h3, hexDigit h4 with
     | some a, some b, some c, some d =>
       let cp := ((a * 16 + b) * 16 + c) * 16 + d
       if 0xD800 ≤ cp ∧ cp ≤ 0xDFFF then none
       else
         match pStringBody rest with
         | some (s, r) => some (Char.ofNat cp :: s, r)
         | none => none
     | _, _, _, _ => none)
  | '\\' :: e :: rest =>
    (match escChar e with
     | some ch =>
       (match pStringBody rest with
        | some (s, r) => some (ch :: s, r)
        | none => none)
     | none => none)
  | c :: rest =>
    if c.toNat < 32 then none
    else
      match pStringBody rest with
      | some (s, r) => some (c :: s, r)
      | none => none

/-- Numeric value of a digit list. -/
def digitsVal (ds : List Char) : Nat :=
  ds.foldl (fun a c => a * 10 + (c.toNat - 48)) 0

/-- Assemble a JSON number from sign, integer digits, fraction digits
and decimal exponent. -/
def ratOfParts (neg : Bool) (intDs fracDs : List Char) (e : Int) : ℚ :=
  let m : Int := (digitsVal (intDs ++ fracDs) : Int)
  let m := if neg then -m else m
  let scale : Int := e - fracDs.length
  if 0 ≤ scale then mkRat (m * (10 ^ scale.toNat)) 1
  else mkRat m (10 ^ (-scale).toNat)

/-- Parse an optional JSON exponent part, returning the exponent (0 when
absent) and the remaining input. -/
def pExpPart (cs : List Char) : Option (Int × List Char) :=
  match cs with
  | e :: r =>
    if e = 'e' ∨ e = 'E' then
      let sr : Int × List Char :=
        match r with
        | '+' :: rr => (1, rr)
        | '-' :: rr => (-1, rr)
        | _ => (1, r)
      let eds := sr.2.takeWhile Char.isDigit
      if eds = [] then none
      else some (sr.1 * (digitsVal eds : Int), sr.2.dropWhile Char.isDigit)
    else some (0, cs)
  | [] => some (0, [])

/-- Parse an optional JSON fraction part, returning the fraction digits
(empty when absent) and the remaining input. -/
def pFracPart (cs : List Char) : Option (List Char × List Char) :=
  match cs with
  | '.' :: r =>
    let f := r.takeWhile Char.isDigit
    if f = [] then none else some (f, r.dropWhile Char.isDigit)
  | _ => some ([], cs)

/-- Parse a JSON number (optional minus, no leading zeros, optional
fraction and exponent). -/
def pNumber (cs : List Char) : Option (ℚ × List Char) :=
  let sr : Bool × List Char :=
    match cs with
    | '-' :: r => (true, r)
    | _ => (false, cs)
  let ds := sr.2.takeWhile Char.isDigit
  if ds = [] then none
  else if 1 < ds.length ∧ ds.headD '0' = '0' then none
  else
    match pFracPart (sr.2.dropWhile Char.isDigit) with
    | some (fds, r2) =>
      (match pExpPart r2 with
       | some (e, r3) => some (ratOfParts sr.1 ds fds e, r3)
       | none => none)
    | none => none

mutual

/-- Parse one JSON value after skipping leading whitespace; the fuel
argument keeps the recursion structural and is instantiated generously
by `jsonParse`. -/
def pVal : Nat → List Char → Option (JsValue × List Char)
  | 0, _ => none
  | fuel + 1, cs =>
    match skipWs cs with
    | 'n' :: 'u' :: 'l' :: 'l' :: rest => some (.null, rest)
    | 't' :: 'r' :: 'u' :: 'e' :: rest => some (.bool true, rest)
    | 'f' :: 'a' :: 'l' :: 's' :: 'e' :: rest => some (.bool false, rest)
    | '"' :: rest =>
      (match pStringBody rest with
       | some (s, r) => some (.str s, r)
       | none => none)
    | '[' :: rest =>
      (match skipWs rest with
       | ']' :: r => some (.arr [], r)
       | _ =>
         match pElems fuel rest with
         | some (vs, r) => some (.arr vs, r)
         | none => none)
    | '{' :: rest =>
      (match skipWs rest with
       | '}' :: r => some (.obj [], r)
       | _ =>
         match pMembers fuel rest with
         | some (fs, r) => some (.obj fs, r)
         | none => none)
    | cs2 =>
      match pNumber cs2 with
      | some (q, r) => some (.num q, r)
      | none => none

/-- Parse the comma-separated elements of a non-empty JSON array, up to
and including the closing bracket. -/
def pElems : Nat → List Char → Option (List JsValue × List Char)
  | 0, _ => none
  | fuel + 1, cs =>
    match pVal fuel cs with
    | some (v, r) =>
      (match skipWs r with
       | ',' :: r2 =>
         (match pElems fuel r2 with
          | some (vs, r3) => some (v :: vs, r3)
          | none => none)
       | ']' :: r2 => some ([v], r2)
       | _ => none)
    | none => none

/-- Parse the members of a non-empty JSON object, up to and including
the closing brace. -/
def pMembers : Nat → List Char → Option (List (List Char × JsValue) × List Char)
  | 0, _ => none
  | fuel + 1, cs =>
    match skipWs cs with
    | '"' :: rest =>
      (match pStringBody rest with
       | some (k, r) =>
         (match skipWs r with
          | ':' :: r2 =>
            (match pVal fuel r2 with
             | some (v, r3) =>
               (match skipWs r3 with
                | ',' :: r4 =>
                  (match pMembers fuel r4 with
                   | some (fs, r5) => some ((k, v) :: fs, r5)
                   | none => none)
                | '}' :: r4 => some ([(k, v)], r4)
                | _ => none)
             | none => none)
          | _ => none)
       | none => none)
    | _ => none

end

/-- The embedding of `JSON.parse`: parse one value, allow surrounding
whitespace, require the input to be fully consumed. -/
def jsonParse (cs : List Char) : Option JsValue :=
  match pVal (cs.length + cs.length + 2) cs with
  | some (v, rest) => if skipWs rest = [] then some v else none
  | none => none

/-! ## JavaScript semantics used by the handler -/

/-- JavaScript truthiness of a value (`!x` is its negation).  `-0` and
`NaN` cannot come out of `JSON.parse`, so the numeric case is exact. -/
def truthy : JsValue → Bool
  | .undefinedV => false
  | .null => false
  | .bool b => b
  | .num q => decide (q ≠ 0)
  | .str s => !s.isEmpty
  | .arr _ => true
  | .obj _ => true

/-- Property lookup in an object literal: the last assignment to a key
wins, absent keys read `undefined`. -/
def getField (fields : List (List Char × JsValue)) (k : List Char) : JsValue :=
  fields.foldl (fun acc f => if f.1 = k then f.2 else acc) .undefinedV

/-- A JavaScript property access `v.k`: throws a `TypeError` on `null`
and `undefined`, reads the field of an object, and yields `undefined`
on other primitives (their boxed wrappers carry no such field). -/
def getMember : JsValue → List Char → Except Unit JsValue
  | .null, _ => .error ()
  | .undefinedV, _ => .error ()
  | .obj fs, k => .ok (getField fs k)
  | _, _ => .ok .undefinedV

/-- A JavaScript number as produced by `Number(...)`: finite values
exactly as rationals, plus `NaN` and the two infinities. -/
inductive JNum where
  | nan
  | posInf
  | negInf
  | fin (q : ℚ)
deriving DecidableEq

/-- JavaScript `String.prototype.trim` whitespace (ECMA-262 TrimString:
WhiteSpace and LineTerminator code points). -/
def isJsSpace (c : Char) : Bool :=
  c.toNat ∈ [9, 10, 11, 12, 13, 32, 0xA0, 0x1680, 0x2028, 0x2029, 0x202F, 0x205F, 0x3000,
    0xFEFF] || (0x2000 ≤ c.toNat && c.toNat ≤ 0x200A)

/-- JavaScript string trimming (both ends). -/
def jsTrim (s : List Char) : List Char :=
  ((s.dropWhile isJsSpace).reverse.dropWhile isJsSpace).reverse

/-- Numeric value of a digit list in a given radix, `none` if any
character is not a digit of that radix. -/
def radixVal (dv : Char → Option Nat) (radix : Nat) (cs : List Char) : Option Nat :=
  cs.foldl
    (fun acc c =>
      match acc, dv c with
      | some a, some d => some (a * radix + d)
      | _, _ => none)
    (some 0)

/-- Value of one binary digit. -/
def binDigit (c : Char) : Option Nat :=
  if c = '0' then some 0 else if c = '1' then some 1 else none

/-- Value of one octal digit. -/
def octDigit (c : Char) : Option Nat :=
  if '0' ≤ c ∧ c ≤ '7' then some (c.toNat - 48) else none

/-- Unsigned decimal literal of the `Number(string)` grammar
(`StrUnsignedDecimalLiteral` without `Infinity`): digits with optional
fraction and exponent, the whole input consumed.  Unlike a JSON
number, the grammar here admits an empty fraction after the dot
(`DecimalDigits . DecimalDigits_opt ExponentPart_opt`), so `"5."`,
`"0."` and `"5.e3"` are the numbers 5, 0 and 5000, and it admits a
leading dot (`".5"`); only a bare `"."` has neither integer nor
fraction digits and stays `NaN`. -/
def strUnsignedDec (cs : List Char) : Option ℚ :=
  let ids := cs.takeWhile Char.isDigit
  let afterInt := cs.dropWhile Char.isDigit
  let fr : List Char × List Char :=
    match afterInt with
    | '.' :: r => (r.takeWhile Char.isDigit, r.dropWhile Char.isDigit)
    | _ => ([], afterInt)
  if ids = [] ∧ fr.1 = [] then none
  else
    match pExpPart fr.2 with
    | some (e, r3) => if r3 = [] then some (ratOfParts false ids fr.1 e) else none
    | none => none

/-- The `Number(string)` coercion (ECMA-262 StringToNumber): trimmed
empty is `0`, recognized radix prefixes, optional sign with `Infinity`
or a decimal literal, anything else `NaN`. -/
def strToNumber (s : List Char) : JNum :=
  let t := jsTrim s
  if t = [] then .fin 0
  else
    match t with
    | '0' :: c :: rest =>
      if c = 'x' ∨ c = 'X' then
        (match radixVal hexDigit 16 rest with
         | some v => if rest = [] then .nan else .fin v
         | none => .nan)
      else if c = 'o' ∨ c = 'O' then
        (match radixVal octDigit 8 rest with
         | some v => if rest = [] then .nan else .fin v
         | none => .nan)
      else if c = 'b' ∨ c = 'B' then
        (match radixVal binDigit 2 rest with
         | some v => if rest = [] then .nan else .fin v
         | none => .nan)
      else
        match strUnsignedDec t with
        | some q => .fin q
        | none => .nan
    | _ =>
      let sr : Bool × Bool × List Char :=
        match t with
        | '-' :: r => (true, true, r)
        | '+' :: r => (false, true, r)
        | _ => (false, false, t)
      if sr.2.2 = "Infinity".data then (if sr.1 then .negInf else .posInf)
      else
        match strUnsignedDec sr.2.2 with
        | some q => .fin (if sr.1 then -q else q)
        | none => .nan

/-- The `Number(...)` coercion on JavaScript values.  Arrays and objects
go through `ToPrimitive` in JavaScript; they are approximated as `NaN`
here and no theorem below depends on those branches (each one pins the
`exp` field to a number or a string). -/
def toNumber : JsValue → JNum
  | .undefinedV => .nan
  | .null => .fin 0
  | .bool b => .fin (if b then 1 else 0)
  | .num q => .fin q
  | .str s => strToNumber s
  | .arr _ => .nan
  | .obj _ => .nan

/-- The expiry comparison `now > x` against a JavaScript number: false
against `NaN` and `+Infinity`, true against `-Infinity`. -/
def nowGtNum (now : ℚ) : JNum → Bool
  | .nan => false
  | .posInf => false
  | .negInf => true
  | .fin q => decide (q < now)

/-- The `String.prototype.toLowerCase` method, modelled for Basic Latin
(`Char.toLower` maps `A`–`Z` and fixes everything else; the full
Unicode mapping differs only outside ASCII, and the properties below
pin emails to the characters the handler's tokens carry). -/
def jsToLower (s : List Char) : List Char := s.map Char.toLower

/-- The `String(...)` coercion.  Strings, booleans, `null`, `undefined`
and objects (`"[object Object]"`) are exact; numbers are rendered
exactly only when integral (JavaScript prints floats with
shortest-round-trip notation), and arrays are given a placeholder — the
theorems below only reach this function with a string. -/
def jsToString : JsValue → List Char
  | .str s => s
  | .null => "null".data
  | .undefinedV => "undefined".data
  | .bool true => "true".data
  | .bool false => "false".data
  | .num q =>
    if q.den = 1 then
      (if q.num < 0 then '-' :: Nat.toDigits 10 q.num.natAbs else Nat.toDigits 10 q.num.natAbs)
    else '#' :: Nat.toDigits 10 q.num.natAbs
  | .obj _ => "[object Object]".data
  | .arr _ => []

/-- The `esc` helper of the source: HTML-escape the five special
characters. -/
def esc (s : List Char) : List Char :=
  s.flatMap fun c =>
    if c = '&' then "&amp;".data
    else if c = '<' then "&lt;".data
    else if c = '>' then "&gt;".data
    else if c = '"' then "&quot;".data
    else if c = '\'' then "&#39;".data
    else [c]

/-- The `String.prototype.split("@")` method. -/
def splitAtSign : List Char → List (List Char)
  | [] => [[]]
  | c :: rest =>
    if c = '@' then [] :: splitAtSign rest
    else
      match splitAtSign rest with
      | h :: t => (c :: h) :: t
      | [] => [[c]]

/-- The `maskEmail` helper of the source: split on `@`, return the
input unchanged when there is no (or an empty) second part, otherwise
keep one or two leading characters of the local part. -/
def maskEmail (email : List Char) : List Char :=
  match splitAtSign email with
  | locl :: domain :: _ =>
    if domain = [] then email
    else if locl.length ≤ 2 then locl.take 1 ++ "***@".data ++ domain
    else locl.take 2 ++ "***@".data ++ domain
  | _ => email

/-! ## The token verifier -/

/-- The `safeEqual` helper of the source: false on differing lengths,
otherwise `crypto.timingSafeEqual`, which compares every byte pair
regardless of earlier mismatches. -/
def safeEqual (a b : List Nat) : Bool :=
  if a.length ≠ b.length then false
  else (List.zip a b).all fun p => p.1 == p.2

/-- The comparison `safeEqual` decides equality of byte strings. -/
theorem safeEqual_eq_true_iff (a b : List Nat) : safeEqual a b = true ↔ a = b := by
  unfold safeEqual
  constructor
  · intro h
    split at h
    · exact absurd h (by simp)
    · next hlen =>
      rw [not_ne_iff] at hlen
      rw [List.all_eq_true] at h
      exact List.ext_get hlen fun i h1 h2 => by
        have := h (a.get ⟨i, h1⟩, b.get ⟨i, h2⟩) (by
          rw [List.mem_iff_get]
          exact ⟨⟨i, by rw [List.length_zip, hlen, Nat.min_self]; exact h2⟩, by
            simp [List.get_zip]⟩)
        simpa using this
  · rintro rfl
    have hz : ∀ l : List Nat, (List.zip l l).all (fun p => p.1 == p.2) = true := by
      intro l
      induction l with
      | nil => rfl
      | cons x t ih => simp [List.zip_cons_cons, ih]
    simp [hz]

/-- The outcome of the token-verification prefix of the handler (the
part before the suppression write and response shaping).  `crash` is an
uncaught `TypeError`: reading `.email` off a payload that parsed to
JSON `null`. -/
inductive VerifyOutcome where
  | badToken
  | badSignature
  | badPayload
  | expired
  | crash
  | ok (email : List Char)
deriving DecidableEq

/-- The key `"email"`. -/
def emailKey : List Char := "email".data

/-- The key `"exp"`. -/
def expKey : List Char := "exp".data

/-- Verification of already-decoded token bytes, mirroring handler
lines 94–128: length check, separator check, HMAC comparison, JSON
parse, truthiness check of `email` and `exp`, expiry comparison, and
normalization of the email. -/
def verifyBytes (secret buf : List Nat) (nowSec : ℚ) : VerifyOutcome :=
  if buf.length < 33 then .badToken
  else
    let sig := buf.drop (buf.length - 32)
    let sep := buf.getD (buf.length - 33) 0
    if sep ≠ 46 then .badToken
    else
      let raw := buf.take (buf.length - 33)
      let expected := hmacSha256 secret raw
      if ¬ safeEqual expected sig then .badSignature
      else
        match jsonParse (utf8Decode raw) with
        | none => .badPayload
        | some payload =>
          match getMember payload emailKey with
          | .error _ => .crash
          | .ok ev =>
            if ¬ truthy ev then .badPayload
            else
              match getMember payload expKey with
              | .error _ => .crash
              | .ok xv =>
                if ¬ truthy xv then .badPayload
                else if nowGtNum nowSec (toNumber xv) then .expired
                else .ok (jsToLower (jsTrim (jsToString ev)))

/-- Verification of a token string: base64url-decode, then verify the
bytes.  `nowSec` is `Date.now() / 1000`. -/
def verifyToken (secret : List Nat) (token : List Char) (nowSec : ℚ) : VerifyOutcome :=
  verifyBytes secret (base64urlToBuffer token) nowSec

/-! ## The suppression store

`saveSuppression` issues a single
`INSERT ... ON CONFLICT (email) DO UPDATE` against Postgres; the
database is an external collaborator, so its upsert semantics — one
atomic conditional write keyed on the `email` primary key — is
modelled as one `upsertSuppression` step on a row list.  When no pool
is configured the function returns without touching anything, and a
throwing backend surfaces as an `Except.error` that the handler logs
and swallows. -/

/-- One row of the `suppression` table. -/
structure SuppressionRow where
  email : List Char
  source : List Char
  reason : List Char
  ts : ℚ
deriving DecidableEq

/-- The Postgres upsert: update the matching row in place if the key is
present, append a fresh row otherwise. -/
def upsertSuppression (st : List SuppressionRow) (email source : List Char) (now : ℚ) :
    List SuppressionRow :=
  if st.any fun r => r.email == email then
    st.map fun r =>
      if r.email = email then { r with source := source, reason := "user-request".data, ts := now }
      else r
  else st ++ [⟨email, source, "user-request".data, now⟩]

/-- Per-request behavior of the persistence backend. -/
inductive DbBackend where
  | noPool
  | writeOk
  | writeFails (msg : List Char)

/-- The `saveSuppression` helper: a no-op without a pool, the upsert
when the write goes through, an exception otherwise. -/
def saveSuppression (db : DbBackend) (st : List SuppressionRow) (email source : List Char)
    (now : ℚ) : Except (List Char) (List SuppressionRow) :=
  match db with
  | .noPool => .ok st
  | .writeOk => .ok (upsertSuppression st email source now)
  | .writeFails m => .error m

/-! ## The HTTP handler -/

/-- The `token` entry of `req.query`: absent, a string, or an array of
strings. -/
inductive QueryVal where
  | missing
  | str (s : List Char)
  | arr (vs : List (List Char))

/-- Lines 86–88 of the source: an array picks its first element. -/
def tokenOf : QueryVal → Option (List Char)
  | .missing => none
  | .str s => some s
  | .arr vs => vs.head?

/-- An incoming request: its method and its `token` query value. -/
structure Request where
  method : List Char
  token : QueryVal

/-- The handler's configuration: the shared secret (`UNSUB_SECRET`
bytes) and `VISIBLE_UNSUB_REDIRECT` (empty means render inline). -/
structure Config where
  secret : List Nat
  redirect : List Char

/-- A response body: empty, plain text, or the confirmation page, the
latter carrying the HTML-escaped masked email it embeds. -/
inductive Body where
  | empty
  | text (s : List Char)
  | page (maskedEscaped : List Char)
deriving DecidableEq

/-- A response: status code, headers in the order they are set, and
body. -/
structure Response where
  status : Nat
  headers : List (List Char × List Char)
  body : Body
deriving DecidableEq

/-- What one handler invocation produces: the response, the store as
left by the request, and the `console.error` log. -/
structure HandlerResult where
  resp : Response
  store : List SuppressionRow
  log : List (List Char)
deriving DecidableEq

/-- The `Cache-Control` header set on line 79, before any branch. -/
def cacheControlHeader : List Char × List Char :=
  ("Cache-Control".data, "no-store, max-age=0".data)

/-- Percent-encoding of `URLSearchParams` (ASCII scope; unreserved
characters and `*` kept, space as `+`). -/
def formEncode (s : List Char) : List Char :=
  s.flatMap fun c =>
    if c.isAlphanum ∨ c = '-' ∨ c = '.' ∨ c = '_' ∨ c = '*' then [c]
    else if c = ' ' then ['+']
    else
      '%' :: (Nat.toDigits 16 c.toNat).map fun d =>
        if 'a' ≤ d ∧ d ≤ 'f' then Char.ofNat (d.toNat - 32) else d

/-- The `Location` value built from `VISIBLE_UNSUB_REDIRECT` (modelled
for a base URL without an existing query or fragment, which is how the
source documents the variable). -/
def redirectLocation (base masked : List Char) : List Char :=
  base ++ "?status=success&email=".data ++ formEncode masked

/-- The handler, mirroring lines 78–196 of the source.  `Except.error`
is an uncaught exception escaping the handler (no response of its own).
The backend behavior, the clock and the current table contents are
explicit arguments. -/
def handler (req : Request) (cfg : Config) (db : DbBackend) (nowSec : ℚ)
    (st : List SuppressionRow) : Except (List Char) HandlerResult :=
  let hdrs := [cacheControlHeader]
  if req.method ≠ "GET".data ∧ req.method ≠ "POST".data then
    .ok ⟨⟨405, hdrs ++ [("Allow".data, "GET, POST".data)], .text "Method Not Allowed".data⟩,
      st, []⟩
  else
    let token := tokenOf req.token
    match token with
    | none => .ok ⟨⟨400, hdrs, .text "missing token".data⟩, st, []⟩
    | some tk =>
      if tk.isEmpty then .ok ⟨⟨400, hdrs, .text "missing token".data⟩, st, []⟩
      else
        match verifyToken cfg.secret tk nowSec with
        | .badToken => .ok ⟨⟨400, hdrs, .text "bad token".data⟩, st, []⟩
        | .badSignature => .ok ⟨⟨400, hdrs, .text "signature".data⟩, st, []⟩
        | .badPayload => .ok ⟨⟨400, hdrs, .text "payload".data⟩, st, []⟩
        | .expired => .ok ⟨⟨400, hdrs, .text "expired".data⟩, st, []⟩
        | .crash => .error "TypeError".data
        | .ok email =>
          let source := if req.method = "POST".data then "one-click".data else "web".data
          let saved := saveSuppression db st email source nowSec
          let st2 := match saved with | .ok s => s | .error _ => st
          let log : List (List Char) :=
            match saved with
            | .ok _ => []
            | .error m => ["suppression save failed: ".data ++ m]
          if req.method = "POST".data then .ok ⟨⟨204, hdrs, .empty⟩, st2, log⟩
          else
            let masked := maskEmail email
            if ¬ cfg.redirect.isEmpty then
              .ok ⟨⟨302, hdrs ++ [("Location".data, redirectLocation cfg.redirect masked)],
                .empty⟩, st2, log⟩
            else
              .ok ⟨⟨200, hdrs ++ [("Content-Type".data, "text/html; charset=utf-8".data)],
                .page (esc masked)⟩, st2, log⟩

/-! ## Pipeline lemmas -/

/-- The payload stage of `verifyBytes` (parse, field checks, expiry,
normalization), factored out for the lemmas below. -/
def payloadStage (raw : List Nat) (nowSec : ℚ) : VerifyOutcome :=
  match jsonParse (utf8Decode raw) with
  | none => .badPayload
  | some payload =>
    match getMember payload emailKey with
    | .error _ => .crash
    | .ok ev =>
      if ¬ truthy ev then .badPayload
      else
        match getMember payload expKey with
        | .error _ => .crash
        | .ok xv =>
          if ¬ truthy xv then .badPayload
          else if nowGtNum nowSec (toNumber xv) then .expired
          else .ok (jsToLower (jsTrim (jsToString ev)))

/-- Splitting the canonical token byte layout
`payload ++ 0x2E :: signature`. -/
theorem split_token (payload sig : List Nat) (hsig : sig.length = 32) :
    (payload ++ 46 :: sig).length = payload.length + 33 ∧
    (payload ++ 46 :: sig).take ((payload ++ 46 :: sig).length - 33) = payload ∧
    (payload ++ 46 :: sig).getD ((payload ++ 46 :: sig).length - 33) 0 = 46 ∧
    (payload ++ 46 :: sig).drop ((payload ++ 46 :: sig).length - 32) = sig := by
  have hlen : (payload ++ 46 :: sig).length = payload.length + 33 := by
    simp [List.length_append, hsig]
  refine ⟨hlen, ?_, ?_, ?_⟩
  · rw [hlen]
    have : payload.length + 33 - 33 = payload.length := by omega
    rw [this, List.take_left]
  · rw [hlen]
    have : payload.length + 33 - 33 = payload.length := by omega
    rw [this, List.getD_append_right _ _ _ _ (le_refl _), Nat.sub_self]
    rfl
  · rw [hlen, List.append_cons]
    have h1 : payload.length + 33 - 32 = (payload ++ [46]).length := by
      simp
    rw [h1, List.drop_left]

/-- When the decoded bytes carry the separator and a matching HMAC in
the canonical positions, `verifyBytes` reduces to the payload stage on
the prefix. -/
theorem verifyBytes_pass (secret buf : List Nat) (nowSec : ℚ)
    (hlen : 33 ≤ buf.length)
    (hsep : buf.getD (buf.length - 33) 0 = 46)
    (hsig : buf.drop (buf.length - 32) = hmacSha256 secret (buf.take (buf.length - 33))) :
    verifyBytes secret buf nowSec = payloadStage (buf.take (buf.length - 33)) nowSec := by
  have h1 : ¬ buf.length < 33 := by omega
  have h2 : ¬ (buf.getD (buf.length - 33) 0 ≠ 46) := not_ne_iff.mpr hsep
  have hse : safeEqual (hmacSha256 secret (buf.take (buf.length - 33)))
      (buf.drop (buf.length - 32)) = true :=
    (safeEqual_eq_true_iff _ _).mpr hsig.symm
  simp only [verifyBytes, if_neg h1, if_neg h2, hse, eq_self_iff_true, not_true, if_false,
    payloadStage]

/-- On a canonically built token byte string, `verifyBytes` reduces to
the payload stage on the payload. -/
theorem verifyBytes_signed (secret payload : List Nat) (nowSec : ℚ) :
    verifyBytes secret (payload ++ 46 :: hmacSha256 secret payload) nowSec =
      payloadStage payload nowSec := by
  obtain ⟨hlen, htake, hsep, hdrop⟩ :=
    split_token payload (hmacSha256 secret payload) (hmacSha256_length secret payload)
  rw [verifyBytes_pass secret _ nowSec (by omega) hsep (by rw [hdrop, htake]), htake]

/-- The payload stage succeeds on a parsed payload with a truthy string
email and a nonzero numeric expiry at or after the clock. -/
theorem payloadStage_ok (raw : List Nat) (nowSec : ℚ) (v : JsValue)
    (hparse : jsonParse (utf8Decode raw) = some v)
    (es : List Char) (he : getMember v emailKey = .ok (.str es)) (hes : es ≠ [])
    (q : ℚ) (hx : getMember v expKey = .ok (.num q)) (hq0 : q ≠ 0)
    (hnow : nowSec ≤ q) :
    payloadStage raw nowSec = .ok (jsToLower (jsTrim es)) := by
  unfold payloadStage
  rw [hparse]
  simp only [he, hx]
  have ht : truthy (.str es) = true := by simp [truthy, hes]
  have htq : truthy (.num q) = true := by simp [truthy, hq0]
  rw [ht, htq]
  have hgt : nowGtNum nowSec (toNumber (.num q)) = false := by
    simp only [toNumber, nowGtNum, decide_eq_false_iff_not]
    exact not_lt.mpr hnow
  rw [hgt]
  simp [jsToString]

/-! ## Concrete sample data shared by the witnesses -/

/-- UTF-8 bytes of an ASCII string. -/
def asciiBytes (s : List Char) : List Nat := s.map Char.toNat

/-- The sample shared secret `"s3cret"`. -/
def sampleSecret : List Nat := asciiBytes "s3cret".data

/-- The payload bytes of the spec's concrete scenario. -/
def janePayload : List Nat :=
  asciiBytes "\x7b\"email\":\"Jane.Doe@Example.com \",\"exp\": 9999999999\x7d".data

/-- The parsed value of `janePayload`. -/
def janeValue : JsValue :=
  .obj [(emailKey, .str "Jane.Doe@Example.com ".data), (expKey, .num 9999999999)]

/-- A payload with expiry 100, for the boundary witness. -/
def boundaryPayload : List Nat := asciiBytes "\x7b\"email\":\"a@b.c\",\"exp\":100\x7d".data

/-- A payload whose `exp` is the string `"never"`. -/
def neverPayload : List Nat := asciiBytes "\x7b\"email\":\"a@b.c\",\"exp\":\"never\"\x7d".data

/-- A payload whose `exp` is the number 0. -/
def expZeroPayload : List Nat := asciiBytes "\x7b\"email\":\"a@b.c\",\"exp\":0\x7d".data

/-- Canonical token bytes for a payload under the sample secret. -/
def signedBuf (payload : List Nat) : List Nat :=
  payload ++ 46 :: hmacSha256 sampleSecret payload

/-! ## The claims -/

/-- Claim C1.  Round-trip with normalization: for every secret and
every payload whose UTF-8 text parses as JSON with a non-empty string
`email` and a positive numeric `exp`, verifying the token built as
URL-safe-base64(payload ++ 0x2E ++ HMAC-SHA256(secret, payload)) with
the same secret at any `now ≤ exp` succeeds and returns the payload's
email trimmed of surrounding whitespace and lowercased. -/
theorem c1_roundtrip_normalized (secret payload : List Nat)
    (hp : ∀ b ∈ payload, b < 256)
    (v : JsValue) (hparse : jsonParse (utf8Decode payload) = some v)
    (es : List Char) (he : getMember v emailKey = .ok (.str es)) (hes : es ≠ [])
    (q : ℚ) (hx : getMember v expKey = .ok (.num q)) (hq0 : 0 < q)
    (nowSec : ℚ) (hnow : nowSec ≤ q) :
    verifyToken secret (base64urlEncode (payload ++ 46 :: hmacSha256 secret payload)) nowSec
      = .ok (jsToLower (jsTrim es)) := by
  unfold verifyToken
  have hb : ∀ b ∈ payload ++ 46 :: hmacSha256 secret payload, b < 256 := by
    intro b hbm
    simp only [List.mem_append, List.mem_cons] at hbm
    rcases hbm with h | h | h
    · exact hp b h
    · omega
    · exact hmacSha256_bytes_lt b h
  rw [base64urlToBuffer_encode hb, verifyBytes_signed]
  exact payloadStage_ok _ _ v hparse es he hes q hx (ne_of_gt hq0) hnow

/-- Witness for C1: the spec's concrete scenario.  The payload
`{"email":"Jane.Doe@Example.com ","exp": 9999999999}` signed with
`"s3cret"` verifies at a 2025 clock and yields the normalized email
`"jane.doe@example.com"`. -/
theorem c1_roundtrip_normalized_witness :
    verifyToken sampleSecret (base64urlEncode (signedBuf janePayload)) 1760000000
      = .ok "jane.doe@example.com".data :=
  c1_roundtrip_normalized sampleSecret janePayload (by decide) janeValue rfl
    "Jane.Doe@Example.com ".data rfl (by decide) 9999999999 rfl (by decide)
    1760000000 (by decide)

/-- Claim C2.  Signature gate: whenever the decoded bytes pass the
length and separator checks but the trailing 32 bytes differ in any way
from HMAC-SHA256(secret, payload bytes), verification fails with the
`signature` error — before the payload is parsed, hence for every
payload content. -/
theorem c2_signature_gate (secret buf : List Nat) (nowSec : ℚ)
    (hlen : 33 ≤ buf.length)
    (hsep : buf.getD (buf.length - 33) 0 = 46)
    (hne : buf.drop (buf.length - 32) ≠ hmacSha256 secret (buf.take (buf.length - 33))) :
    verifyBytes secret buf nowSec = .badSignature := by
  have h1 : ¬ buf.length < 33 := by omega
  have h2 : ¬ (buf.getD (buf.length - 33) 0 ≠ 46) := not_ne_iff.mpr hsep
  have hse : safeEqual (hmacSha256 secret (buf.take (buf.length - 33)))
      (buf.drop (buf.length - 32)) = false := by
    cases hsf : safeEqual (hmacSha256 secret (buf.take (buf.length - 33)))
        (buf.drop (buf.length - 32))
    · rfl
    · exact absurd ((safeEqual_eq_true_iff _ _).mp hsf).symm hne
  simp only [verifyBytes, if_neg h1, if_neg h2, hse, Bool.false_eq_true, not_false_eq_true,
    if_true]

/-- Witness for C2: 33 bytes starting with the separator and carrying
an all-zero signature fail with the `signature` error under the sample
secret. -/
theorem c2_signature_gate_witness :
    33 ≤ (46 :: List.replicate 32 0 : List Nat).length ∧
      verifyBytes sampleSecret (46 :: List.replicate 32 0) 0 = .badSignature :=
  ⟨by decide,
    c2_signature_gate sampleSecret (46 :: List.replicate 32 0) 0 (by decide) (by decide)
      (by decide)⟩

/-- Claim C5.  Structural validity: decoded byte strings shorter than
33 bytes, or whose byte immediately preceding the trailing 32-byte
signature is not 0x2E, fail with the `bad token` error — regardless of
the rest of the content, hence even if a signature would verify over a
shifted boundary. -/
theorem c5_malformed (secret buf : List Nat) (nowSec : ℚ)
    (h : buf.length < 33 ∨ buf.getD (buf.length - 33) 0 ≠ 46) :
    verifyBytes secret buf nowSec = .badToken := by
  by_cases hl : buf.length < 33
  · simp only [verifyBytes, if_pos hl]
  · rcases h with h | h
    · exact absurd h hl
    · simp only [verifyBytes, if_neg hl, if_pos h]

/-- Witness for C5: the empty byte string (length 0) and a 33-byte
string whose separator byte is 0 both fail with the `bad token`
error. -/
theorem c5_malformed_witness :
    verifyBytes sampleSecret [] 0 = .badToken ∧
      verifyBytes sampleSecret (List.replicate 33 0) 0 = .badToken :=
  ⟨c5_malformed sampleSecret [] 0 (Or.inl (by decide)),
    c5_malformed sampleSecret (List.replicate 33 0) 0 (Or.inr (by decide))⟩

/-- The payload stage fails with `expired` on a parsed payload with
truthy email and a nonzero numeric expiry strictly before the clock. -/
theorem payloadStage_expired (raw : List Nat) (nowSec : ℚ) (v : JsValue)
    (hparse : jsonParse (utf8Decode raw) = some v)
    (ev : JsValue) (he : getMember v emailKey = .ok ev) (het : truthy ev = true)
    (q : ℚ) (hx : getMember v expKey = .ok (.num q)) (hq0 : q ≠ 0)
    (hgt : q < nowSec) :
    payloadStage raw nowSec = .expired := by
  unfold payloadStage
  rw [hparse]
  simp only [he, hx]
  have htq : truthy (.num q) = true := by simp [truthy, hq0]
  have hg : nowGtNum nowSec (toNumber (.num q)) = true := by
    simp [toNumber, nowGtNum, hgt]
  rw [het, htq, hg]
  simp

/-- Claim C3.  Expiry boundary: on a signature-valid token whose
payload parses with a non-empty string email and a nonzero numeric
`exp`, verification fails with the `expired` error exactly when the
clock (in seconds) is strictly greater than `exp`; at `now = exp` it
still succeeds. -/
theorem c3_expiry_boundary (secret buf : List Nat) (nowSec : ℚ)
    (hlen : 33 ≤ buf.length)
    (hsep : buf.getD (buf.length - 33) 0 = 46)
    (hsig : buf.drop (buf.length - 32) = hmacSha256 secret (buf.take (buf.length - 33)))
    (v : JsValue)
    (hparse : jsonParse (utf8Decode (buf.take (buf.length - 33))) = some v)
    (es : List Char) (he : getMember v emailKey = .ok (.str es)) (hes : es ≠ [])
    (q : ℚ) (hx : getMember v expKey = .ok (.num q)) (hq0 : q ≠ 0) :
    (q < nowSec → verifyBytes secret buf nowSec = .expired) ∧
    (nowSec ≤ q → verifyBytes secret buf nowSec = .ok (jsToLower (jsTrim es))) := by
  rw [verifyBytes_pass secret buf nowSec hlen hsep hsig]
  have het : truthy (.str es) = true := by simp [truthy, hes]
  exact ⟨fun hgt => payloadStage_expired _ _ v hparse (.str es) he het q hx hq0 hgt,
    fun hle => payloadStage_ok _ _ v hparse es he hes q hx hq0 hle⟩

/-- The parsed value of `boundaryPayload`. -/
def boundaryValue : JsValue := .obj [(emailKey, .str "a@b.c".data), (expKey, .num 100)]

/-- Witness for C3, at the boundary: the signed `exp = 100` payload is
`expired` at clock 101 (`exp = now - 1`) and accepted at clock 100
(`exp = now`). -/
theorem c3_expiry_boundary_witness :
    verifyBytes sampleSecret (signedBuf boundaryPayload) 101 = .expired ∧
      verifyBytes sampleSecret (signedBuf boundaryPayload) 100 = .ok "a@b.c".data :=
  ⟨(c3_expiry_boundary sampleSecret (signedBuf boundaryPayload) 101 (by decide) (by decide)
      rfl boundaryValue rfl "a@b.c".data rfl (by decide) 100 rfl (by decide)).1 (by decide),
    (c3_expiry_boundary sampleSecret (signedBuf boundaryPayload) 100 (by decide) (by decide)
      rfl boundaryValue rfl "a@b.c".data rfl (by decide) 100 rfl (by decide)).2 (by decide)⟩

/-- Claim C4.  Non-numeric expiry passes the expiry check: on a
signature-valid token whose payload parses with a non-empty string
email and whose `exp` is a non-empty string not convertible to a number
(`Number(exp)` is `NaN`), the comparison `Date.now()/1000 > Number(exp)`
is false against `NaN`, so verification succeeds at every clock value
and the one-click request records the unsubscribe. -/
theorem c4_nonnumeric_exp (secret : List Nat) (t redirect : List Char)
    (hlen : 33 ≤ (base64urlToBuffer t).length)
    (hsep : (base64urlToBuffer t).getD ((base64urlToBuffer t).length - 33) 0 = 46)
    (hsig : (base64urlToBuffer t).drop ((base64urlToBuffer t).length - 32) =
      hmacSha256 secret ((base64urlToBuffer t).take ((base64urlToBuffer t).length - 33)))
    (v : JsValue)
    (hparse : jsonParse (utf8Decode ((base64urlToBuffer t).take
      ((base64urlToBuffer t).length - 33))) = some v)
    (es : List Char) (he : getMember v emailKey = .ok (.str es)) (hes : es ≠ [])
    (s : List Char) (hx : getMember v expKey = .ok (.str s)) (hs : s ≠ [])
    (hnan : strToNumber s = .nan) :
    ∀ (nowSec : ℚ) (st : List SuppressionRow),
      verifyToken secret t nowSec = .ok (jsToLower (jsTrim es)) ∧
      handler ⟨"POST".data, .str t⟩ ⟨secret, redirect⟩ .writeOk nowSec st =
        .ok ⟨⟨204, [cacheControlHeader], .empty⟩,
          upsertSuppression st (jsToLower (jsTrim es)) "one-click".data nowSec, []⟩ := by
  intro nowSec st
  have hv : verifyToken secret t nowSec = .ok (jsToLower (jsTrim es)) := by
    unfold verifyToken
    rw [verifyBytes_pass secret _ nowSec hlen hsep hsig]
    unfold payloadStage
    rw [hparse]
    simp only [he, hx]
    have ht : truthy (.str es) = true := by simp [truthy, hes]
    have hts : truthy (.str s) = true := by simp [truthy, hs]
    have hgt : nowGtNum nowSec (toNumber (.str s)) = false := by
      simp [toNumber, hnan, nowGtNum]
    rw [ht, hts, hgt]
    simp [jsToString]
  refine ⟨hv, ?_⟩
  have htk : t.isEmpty = false := by
    cases t with
    | nil =>
      rw [show base64urlToBuffer ([] : List Char) = [] from rfl] at hlen
      exact absurd hlen (by decide)
    | cons a t2 => rfl
  simp only [handler, tokenOf, htk, hv, if_neg (show ¬ ("POST".data ≠ "GET".data ∧
    "POST".data ≠ "POST".data) from by simp), Bool.false_eq_true, if_false,
    saveSuppression, if_pos rfl, eq_self_iff_true, if_true]

/-- The parsed value of `neverPayload`. -/
def neverValue : JsValue := .obj [(emailKey, .str "a@b.c".data), (expKey, .str "never".data)]

/-- Witness for C4: the signed `exp = "never"` payload verifies at a
far-future clock, and the POST path upserts the suppression row. -/
theorem c4_nonnumeric_exp_witness :
    verifyToken sampleSecret (base64urlEncode (signedBuf neverPayload)) 99999999999 =
      .ok "a@b.c".data ∧
    handler ⟨"POST".data, .str (base64urlEncode (signedBuf neverPayload))⟩ ⟨sampleSecret, []⟩
        .writeOk 99999999999 [] =
      .ok ⟨⟨204, [cacheControlHeader], .empty⟩,
        [⟨"a@b.c".data, "one-click".data, "user-request".data, 99999999999⟩], []⟩ :=
  c4_nonnumeric_exp sampleSecret (base64urlEncode (signedBuf neverPayload)) []
    (by decide) (by decide) rfl neverValue rfl "a@b.c".data rfl (by decide)
    "never".data rfl (by decide) rfl 99999999999 []

/-- Counterexample to claim C6 as stated: the payload
`{"email":"a@b.c","exp":0}` parses with both fields present, the email
a non-empty string and the expiry the number 0 (present, non-empty,
non-null), and the token is signature-valid — yet the handler answers
`payload` (PayloadInvalid) instead of passing the field check and
proceeding to the expiry comparison: `!payload.exp` is JavaScript
truthiness and 0 is falsy. -/
theorem c6_counterexample :
    jsonParse (utf8Decode expZeroPayload) =
      some (.obj [(emailKey, .str "a@b.c".data), (expKey, .num 0)]) ∧
    (signedBuf expZeroPayload).drop ((signedBuf expZeroPayload).length - 32) =
      hmacSha256 sampleSecret
        ((signedBuf expZeroPayload).take ((signedBuf expZeroPayload).length - 33)) ∧
    verifyBytes sampleSecret (signedBuf expZeroPayload) 5 = .badPayload :=
  ⟨rfl, rfl, rfl⟩

/-- Claim C6 as amended.  Required-field check under JavaScript
truthiness: on a signature-valid token whose payload parses to a value
on which the property reads succeed (that is, not JSON `null`, which
would throw instead), verification fails with the `payload` error
exactly when the `email` or the `exp` field reads as a falsy value —
absent, `null`, `false`, `0`, or the empty string.  In particular a
numeric `exp` equal to 0 fails the field check rather than reaching
the expiry comparison. -/
theorem c6_field_check_amended (secret buf : List Nat) (nowSec : ℚ)
    (hlen : 33 ≤ buf.length)
    (hsep : buf.getD (buf.length - 33) 0 = 46)
    (hsig : buf.drop (buf.length - 32) = hmacSha256 secret (buf.take (buf.length - 33)))
    (v : JsValue)
    (hparse : jsonParse (utf8Decode (buf.take (buf.length - 33))) = some v)
    (ev xv : JsValue)
    (he : getMember v emailKey = .ok ev) (hx : getMember v expKey = .ok xv) :
    verifyBytes secret buf nowSec = .badPayload ↔
      (truthy ev = false ∨ truthy xv = false) := by
  rw [verifyBytes_pass secret buf nowSec hlen hsep hsig]
  unfold payloadStage
  rw [hparse]
  simp only [he, hx]
  cases t1 : truthy ev
  · simp
  · cases t2 : truthy xv
    · simp
    · cases hgt : nowGtNum nowSec (toNumber xv) <;> simp

/-- Witness for the amended C6, at the counterexample input: the
`exp = 0` payload fails with the `payload` error because `truthy 0` is
false. -/
theorem c6_field_check_amended_witness :
    verifyBytes sampleSecret (signedBuf expZeroPayload) 5 = .badPayload ↔
      (truthy (.str "a@b.c".data) = false ∨ truthy (.num 0) = false) :=
  c6_field_check_amended sampleSecret (signedBuf expZeroPayload) 5 (by decide) (by decide)
    rfl (.obj [(emailKey, .str "a@b.c".data), (expKey, .num 0)]) rfl
    (.str "a@b.c".data) (.num 0) rfl rfl

/-- Number of rows of the table keyed by a given email. -/
def countEmail (st : List SuppressionRow) (e : List Char) : Nat :=
  (st.filter fun r => r.email = e).length

/-- Claim C7.  Store idempotence: under the primary-key invariant (at
most one row per email), one upsert — first write or replay alike —
leaves exactly one row for that email, carrying the source, the fixed
`user-request` reason and the timestamp of this most recent call,
leaves every other email's rows untouched, and the write reports
success (the conflict is resolved inside the single
`INSERT ... ON CONFLICT` statement, never surfacing as an error). -/
theorem c7_store_idempotent (st : List SuppressionRow) (e src : List Char) (t : ℚ)
    (hinv : countEmail st e ≤ 1) :
    countEmail (upsertSuppression st e src t) e = 1 ∧
    (∀ row ∈ upsertSuppression st e src t, row.email = e →
      row.source = src ∧ row.reason = "user-request".data ∧ row.ts = t) ∧
    (∀ row ∈ upsertSuppression st e src t, row.email ≠ e → row ∈ st) ∧
    (∀ row ∈ st, row.email ≠ e → row ∈ upsertSuppression st e src t) ∧
    saveSuppression .writeOk st e src t = .ok (upsertSuppression st e src t) := by
  by_cases hany : st.any (fun r => r.email == e) = true
  · have hmem : ∃ r ∈ st, r.email = e := by
      obtain ⟨r, hr, hre⟩ := List.any_eq_true.mp hany
      exact ⟨r, hr, by simpa using hre⟩
    have hup : upsertSuppression st e src t = st.map fun r =>
        if r.email = e then { r with source := src, reason := "user-request".data, ts := t }
        else r := by
      unfold upsertSuppression
      rw [if_pos hany]
    have hemail : ∀ r : SuppressionRow,
        ((if r.email = e then
          { r with source := src, reason := "user-request".data, ts := t } else r) :
          SuppressionRow).email = r.email := by
      intro r
      split <;> rfl
    refine ⟨?_, ?_, ?_, ?_, rfl⟩
    · unfold countEmail
      rw [hup, List.filter_map]
      have hp : ((fun r : SuppressionRow => decide (r.email = e)) ∘ fun r =>
          if r.email = e then
            { r with source := src, reason := "user-request".data, ts := t }
          else r) = fun r : SuppressionRow => decide (r.email = e) := by
        funext r
        simp [Function.comp, hemail r]
      rw [hp, List.length_map]
      obtain ⟨r, hr, hre⟩ := hmem
      have h1 : r ∈ st.filter fun x : SuppressionRow => x.email = e :=
        List.mem_filter.mpr ⟨hr, by simp [hre]⟩
      have h2 : 1 ≤ (st.filter fun x : SuppressionRow => x.email = e).length :=
        List.length_pos.mpr fun hnil => by simp [hnil] at h1
      have h3 := hinv
      unfold countEmail at h3
      omega
    · intro row hrow hre
      rw [hup] at hrow
      obtain ⟨r, hr, hfr⟩ := List.mem_map.mp hrow
      by_cases hcase : r.email = e
      · rw [if_pos hcase] at hfr
        rw [← hfr]
        exact ⟨rfl, rfl, rfl⟩
      · rw [if_neg hcase] at hfr
        rw [← hfr] at hre
        exact absurd hre hcase
    · intro row hrow hre
      rw [hup] at hrow
      obtain ⟨r, hr, hfr⟩ := List.mem_map.mp hrow
      by_cases hcase : r.email = e
      · rw [if_pos hcase] at hfr
        rw [← hfr] at hre
        simp at hre
        exact absurd hcase hre
      · rw [if_neg hcase] at hfr
        rw [← hfr]
        exact hr
    · intro row hrow hre
      rw [hup]
      exact List.mem_map.mpr ⟨row, hrow, by rw [if_neg hre]⟩
  · have hany2 : st.any (fun r => r.email == e) = false := by
      simpa using hany
    have hnone : ∀ r ∈ st, r.email ≠ e := by
      intro r hr
      have := List.any_eq_false.mp hany2 r hr
      simpa using this
    have hup : upsertSuppression st e src t =
        st ++ [⟨e, src, "user-request".data, t⟩] := by
      unfold upsertSuppression
      rw [if_neg hany]
    have hfil : st.filter (fun r : SuppressionRow => r.email = e) = [] :=
      List.filter_eq_nil.mpr fun r hr => by simp [hnone r hr]
    refine ⟨?_, ?_, ?_, ?_, rfl⟩
    · unfold countEmail
      rw [hup, List.filter_append, hfil]
      simp
    · intro row hrow hre
      rw [hup] at hrow
      rcases List.mem_append.mp hrow with h | h
      · exact absurd hre (hnone row h)
      · simp only [List.mem_cons, List.not_mem_nil, or_false] at h
        subst h
        exact ⟨rfl, rfl, rfl⟩
    · intro row hrow hre
      rw [hup] at hrow
      rcases List.mem_append.mp hrow with h | h
      · exact h
      · simp only [List.mem_cons, List.not_mem_nil, or_false] at h
        subst h
        exact absurd rfl hre
    · intro row hrow hre
      rw [hup]
      exact List.mem_append.mpr (Or.inl hrow)

/-- Witness for C7: writing `a@b.c` twice into an empty table — first
from the web flow at time 10, then from one-click at time 20 — leaves
exactly one row, carrying the second call's source and timestamp. -/
theorem c7_store_idempotent_witness :
    countEmail (upsertSuppression (upsertSuppression [] "a@b.c".data "web".data 10)
      "a@b.c".data "one-click".data 20) "a@b.c".data = 1 ∧
    (∀ row ∈ upsertSuppression (upsertSuppression [] "a@b.c".data "web".data 10)
        "a@b.c".data "one-click".data 20, row.email = "a@b.c".data →
      row.source = "one-click".data ∧ row.reason = "user-request".data ∧ row.ts = 20) := by
  have h := c7_store_idempotent (upsertSuppression [] "a@b.c".data "web".data 10)
    "a@b.c".data "one-click".data 20 (by decide)
  exact ⟨h.1, h.2.1⟩

/-- Splitting a string without `@` yields the singleton of that
string. -/
theorem splitAtSign_no_at (s : List Char) (h : '@' ∉ s) : splitAtSign s = [s] := by
  induction s with
  | nil => rfl
  | cons c tl ih =>
    have hc : c ≠ '@' := fun hc => h (by simp [hc])
    have ht : '@' ∉ tl := fun hm => h (by simp [hm])
    simp only [splitAtSign, if_neg hc, ih ht]

/-- Splitting around the first `@`. -/
theorem splitAtSign_append (locl domain : List Char) (hl : '@' ∉ locl) :
    splitAtSign (locl ++ '@' :: domain) = locl :: splitAtSign domain := by
  induction locl with
  | nil => simp [splitAtSign]
  | cons c tl ih =>
    have hc : c ≠ '@' := fun hc => hl (by simp [hc])
    have ht : '@' ∉ tl := fun hm => hl (by simp [hm])
    simp only [List.cons_append, splitAtSign, if_neg hc]
    rw [show tl.append ('@' :: domain) = tl ++ '@' :: domain from rfl, ih ht]

/-- Claim C9.  Email masking: for `local@domain` with a non-empty
local part and a non-empty `@`-free domain, the mask keeps the first
character of the local part when it has at most two characters and the
first two otherwise, then `***@domain`; a string without `@` is
returned unchanged. -/
theorem c9_mask_email :
    (∀ locl domain : List Char, '@' ∉ locl → '@' ∉ domain → locl ≠ [] → domain ≠ [] →
      maskEmail (locl ++ '@' :: domain) =
        (if locl.length ≤ 2 then locl.take 1 else locl.take 2) ++ "***@".data ++ domain) ∧
    (∀ s : List Char, '@' ∉ s → maskEmail s = s) := by
  constructor
  · intro locl domain hl hd hln hdn
    unfold maskEmail
    rw [splitAtSign_append locl domain hl, splitAtSign_no_at domain hd]
    simp only [if_neg hdn]
    by_cases hlen2 : locl.length ≤ 2 <;> simp [hlen2]
  · intro s hs
    unfold maskEmail
    rw [splitAtSign_no_at s hs]

/-- Witness for C9: the spec's concrete mask, and a string without `@`
unchanged. -/
theorem c9_mask_email_witness :
    maskEmail "jane.doe@example.com".data = "ja***@example.com".data ∧
      maskEmail "nodomain".data = "nodomain".data :=
  ⟨c9_mask_email.1 "jane.doe".data "example.com".data (by decide) (by decide) (by decide)
      (by decide),
    c9_mask_email.2 "nodomain".data (by decide)⟩

/-- Claim C10.  Cache directive on every response: whatever the
request, configuration, backend behavior, clock and store contents,
every response the handler returns carries the
`Cache-Control: no-store, max-age=0` header (it is set before any
branch; an uncaught exception produces no handler response at all). -/
theorem c10_cache_control (req : Request) (cfg : Config) (db : DbBackend) (nowSec : ℚ)
    (st : List SuppressionRow) :
    ∀ r, handler req cfg db nowSec st = .ok r → cacheControlHeader ∈ r.resp.headers := by
  intro r h
  simp only [handler] at h
  repeat' split at h
  all_goals
    first
      | exact (Except.noConfusion h)
      | (injection h with h2; subst h2; simp)

/-- Claim C8.  Persistence failures are absorbed: whenever the token
verifies, the handler returns the success response for the method —
204 no-content for POST, a 302 redirect or the confirmation page for
GET — for every backend behavior; with no pool configured the store is
untouched and nothing is logged, and with a throwing backend the store
is untouched and the error is only logged. -/
theorem c8_store_failures_absorbed (req : Request) (cfg : Config) (db : DbBackend)
    (nowSec : ℚ) (st : List SuppressionRow) (tk email : List Char)
    (htok : req.token = .str tk)
    (hm : req.method = "GET".data ∨ req.method = "POST".data)
    (hv : verifyToken cfg.secret tk nowSec = .ok email) :
    ∃ r, handler req cfg db nowSec st = .ok r ∧
      (req.method = "POST".data → r.resp = ⟨204, [cacheControlHeader], .empty⟩) ∧
      (req.method = "GET".data → cfg.redirect.isEmpty = false →
        r.resp = ⟨302, [cacheControlHeader,
          ("Location".data, redirectLocation cfg.redirect (maskEmail email))], .empty⟩) ∧
      (req.method = "GET".data → cfg.redirect.isEmpty = true →
        r.resp = ⟨200, [cacheControlHeader,
          ("Content-Type".data, "text/html; charset=utf-8".data)],
          .page (esc (maskEmail email))⟩) ∧
      (db = .noPool → r.store = st ∧ r.log = []) ∧
      (∀ m, db = .writeFails m → r.store = st ∧
        r.log = ["suppression save failed: ".data ++ m]) := by
  obtain ⟨method, tok⟩ := req
  simp only at htok hm ⊢
  subst htok
  have htk : tk.isEmpty = false := by
    cases tk with
    | nil =>
      rw [show verifyToken cfg.secret [] nowSec = .badToken from rfl] at hv
      exact VerifyOutcome.noConfusion hv
    | cons a t2 => rfl
  have hnm : ¬ (method ≠ "GET".data ∧ method ≠ "POST".data) := by
    rintro ⟨h1, h2⟩
    rcases hm with hm | hm
    · exact h1 hm
    · exact h2 hm
  simp only [handler, if_neg hnm, tokenOf, htk, Bool.false_eq_true, if_false, hv]
  rcases hm with hm | hm <;> subst hm
  · have hng : ¬ (("GET".data : List Char) = "POST".data) := by decide
    simp only [if_neg hng]
    by_cases hr : cfg.redirect.isEmpty
    · simp only [hr, not_true_eq_false, Bool.false_eq_true, if_false]
      refine ⟨_, rfl, ?_, ?_, ?_, ?_, ?_⟩
      · intro habs
        exact absurd habs hng
      · intro _ habs
        exact absurd habs (by decide)
      · intro _ _
        rfl
      · rintro rfl
        exact ⟨rfl, rfl⟩
      · rintro m rfl
        exact ⟨rfl, rfl⟩
    · have hr2 : cfg.redirect.isEmpty = false := by
        cases hre : cfg.redirect.isEmpty
        · rfl
        · exact absurd hre hr
      simp only [hr2, Bool.false_eq_true, not_false_eq_true, if_true]
      refine ⟨_, rfl, ?_, ?_, ?_, ?_, ?_⟩
      · intro habs
        exact absurd habs hng
      · intro _ _
        rfl
      · intro _ habs
        exact habs.elim
      · rintro rfl
        exact ⟨rfl, rfl⟩
      · rintro m rfl
        exact ⟨rfl, rfl⟩
  · simp only [if_pos rfl]
    refine ⟨_, rfl, ?_, ?_, ?_, ?_, ?_⟩
    · intro _
      rfl
    · intro habs
      exact absurd habs (by decide)
    · intro habs
      exact absurd habs (by decide)
    · rintro rfl
      exact ⟨rfl, rfl⟩
    · rintro m rfl
      exact ⟨rfl, rfl⟩

/-- Witness for C8: a GET with the inline page configured and a
throwing backend still renders the confirmation page; the failure is
only logged and the store is untouched. -/
theorem c8_store_failures_absorbed_witness :
    ∃ r, handler ⟨"GET".data, .str (base64urlEncode (signedBuf boundaryPayload))⟩
        ⟨sampleSecret, []⟩ (.writeFails "boom".data) 100 [] = .ok r ∧
      r.resp = ⟨200, [cacheControlHeader,
        ("Content-Type".data, "text/html; charset=utf-8".data)],
        .page (esc (maskEmail "a@b.c".data))⟩ ∧
      r.store = [] ∧ r.log = ["suppression save failed: ".data ++ "boom".data] := by
  obtain ⟨r, hr, _, _, h200, _, hfail⟩ :=
    c8_store_failures_absorbed ⟨"GET".data, .str (base64urlEncode (signedBuf boundaryPayload))⟩
      ⟨sampleSecret, []⟩ (.writeFails "boom".data) 100 []
      (base64urlEncode (signedBuf boundaryPayload)) "a@b.c".data rfl (Or.inl rfl)
      (by rfl)
  obtain ⟨hst, hlog⟩ := hfail "boom".data rfl
  exact ⟨r, hr, h200 rfl rfl, hst, hlog⟩

/-- Witness for C10: a request with a disallowed method gets the 405
response, which carries the cache header. -/
theorem c10_cache_control_witness :
    cacheControlHeader ∈
      ([cacheControlHeader, ("Allow".data, "GET, POST".data)] :
        List (List Char × List Char)) ∧
    handler ⟨"PUT".data, .missing⟩ ⟨sampleSecret, []⟩ .noPool 0 [] =
      .ok ⟨⟨405, [cacheControlHeader, ("Allow".data, "GET, POST".data)],
        .text "Method Not Allowed".data⟩, [], []⟩ :=
  ⟨c10_cache_control ⟨"PUT".data, .missing⟩ ⟨sampleSecret, []⟩ .noPool 0 []
      ⟨⟨405, [cacheControlHeader, ("Allow".data, "GET, POST".data)],
        .text "Method Not Allowed".data⟩, [], []⟩ rfl,
    rfl⟩

end Unsubscribe
